import Mathlib

/-!
Shallow embedding of the Helldivers2SlotMachine sampling logic.

Source: `SlotMachine._pickStratagemsWithConstraints` and the `groupByField`
branch of `SlotMachine.spin` / `SlotMachine.seed`.

Randomness: every JavaScript call `Math.floor(Math.random() * len)` is
modelled by `rng p % len`, where `rng : Nat → Nat` is an arbitrary stream of
draws and `p` counts the calls made so far.  Every run of the JavaScript
corresponds to some `rng`, and every `rng` yields in-range indices, so
universally quantifying over `rng` covers all behaviours.

Items are CSV records; a missing string field is the empty string, matching
the JavaScript idiom `(x.Field || '')`.
-/

/-- Lowercasing as used by the JavaScript `.toLowerCase()` calls (the data
is ASCII): `Char.toLower` mapped over the characters.  (`String.toLower` in
core is the same map, but written with a recursion the kernel cannot
evaluate; this definition is kernel-executable.) -/
def strToLower (s : String) : String := ⟨s.data.map Char.toLower⟩

/-- A CSV-derived item.  Only the fields the sampling logic reads are kept:
`Name`, `Type`, `Subtype`, `Has Backpack`. -/
structure Item where
  name : String
  type : String
  subtype : String
  hasBackpack : String
deriving DecidableEq, Repr

/-- `satisfies(items)` from `_pickStratagemsWithConstraints`:
at most one item with `Has Backpack == 'true'` (case-insensitive), and at
most one non-expendable support weapon. -/
def satisfies (items : List Item) : Bool :=
  let backpackCount :=
    (items.filter (fun x => strToLower x.hasBackpack == "true")).length
  if backpackCount > 1 then false
  else
    let support := items.filter (fun x => strToLower x.type == "support weapon")
    let nonExpendableSupport :=
      support.filter (fun x => !(strToLower x.subtype == "expendable"))
    if nonExpendableSupport.length > 1 then false
    else true

/-- One retry attempt's draw loop:
`for (i = 0; i < count; i++) { if (!temp.length) break; splice a random
element into pick }`.  Returns the picked items together with the next
position in the random stream. -/
def drawSeq (rng : Nat → Nat) : Nat → List Item → Nat → List Item × Nat
  | p, _, 0 => ([], p)
  | p, [], _ + 1 => ([], p)
  | p, t :: ts, n + 1 =>
    let i := rng p % (t :: ts).length
    let x := (t :: ts).getD i t
    let rest := (t :: ts).eraseIdx i
    let r := drawSeq rng (p + 1) rest n
    (x :: r.1, r.2)

/-- `MAX_TRIES` from `_pickStratagemsWithConstraints`. -/
def MAX_TRIES : Nat := 200

/-- The retry loop of `_pickStratagemsWithConstraints`: up to `fuel` attempts,
each drawing `count` items without replacement from a fresh copy of `pool`,
returning the first draw that has full length and satisfies the constraints
(with the next random-stream position), or `none` if the budget runs out. -/
def tryAttempts (rng : Nat → Nat) (pool : List Item) (count : Nat) :
    Nat → Nat → Option (List Item) × Nat
  | 0, p => (none, p)
  | fuel + 1, p =>
    let r := drawSeq rng p pool count
    if r.1.length == count && satisfies r.1 then (some r.1, r.2)
    else tryAttempts rng pool count fuel r.2

/-- The loop body of the greedy fallback, with an explicit iteration bound
`fuel`: while the result is shorter than `count` and candidates remain,
splice out a random candidate and accept it only if the constraints still
hold.  Each iteration removes exactly one candidate, so `fuel =
remaining.length` runs the loop to completion. -/
def greedyGo (rng : Nat → Nat) (count : Nat) :
    Nat → Nat → List Item → List Item → List Item
  | 0, _, result, _ => result
  | _ + 1, _, result, [] => result
  | fuel + 1, p, result, r :: rs =>
    if result.length < count then
      let i := rng p % (r :: rs).length
      let cand := (r :: rs).getD i r
      let remaining := (r :: rs).eraseIdx i
      let result' := if satisfies (result ++ [cand]) then result ++ [cand] else result
      greedyGo rng count fuel (p + 1) result' remaining
    else result

/-- The greedy fallback of `_pickStratagemsWithConstraints`: the loop runs at
most `remaining.length` times, since each iteration splices one candidate out
of `remaining`. -/
def greedy (rng : Nat → Nat) (count : Nat) (p : Nat) (result : List Item)
    (remaining : List Item) : List Item :=
  greedyGo rng count remaining.length p result remaining

/-- `_pickStratagemsWithConstraints(source, count)`: returns `[]` for
`count <= 0`; otherwise runs the retry loop, then the greedy fallback, and
pads with `null` (here `none`) up to `count`. -/
def pickStratagemsWithConstraints (rng : Nat → Nat) (source : List Item)
    (count : Int) : List (Option Item) :=
  if count ≤ 0 then []
  else
    let pool := source
    let t := tryAttempts rng pool count.toNat MAX_TRIES 0
    match t.1 with
    | some pick => pick.map some
    | none =>
      let result := greedy rng count.toNat t.2 [] pool
      result.map some ++ List.replicate (count.toNat - result.length) none

/-- The bucket key of an item under a grouping field accessor `f`:
`(item[field] || '').toLowerCase()`. -/
def bucketKey (f : Item → String) (it : Item) : String := strToLower (f it)

/-- One step of bucket construction in the `groupByField` branch: skip items
with an empty key, append to an existing bucket, or create a new bucket at
the end (JavaScript `Map` preserves insertion order). -/
def addToBuckets (f : Item → String) (bs : List (String × List Item))
    (it : Item) : List (String × List Item) :=
  let key := bucketKey f it
  if key = "" then bs
  else if (bs.lookup key).isSome then
    bs.map (fun kv => if kv.1 = key then (kv.1, kv.2 ++ [it]) else kv)
  else bs ++ [(key, [it])]

/-- The bucket map built by the `groupByField` branch of `spin` / `seed`. -/
def buildBuckets (f : Item → String) (source : List Item) :
    List (String × List Item) :=
  source.foldl (addToBuckets f) []

/-- The per-slot loop of the `groupByField` branch: for each of `n` slots,
if no keys remain push `null`; otherwise splice out a random key, and push a
random member of its bucket (or `null` for an empty bucket). -/
def groupPick (rng : Nat → Nat) (bs : List (String × List Item)) :
    Nat → Nat → List String → List (Option Item)
  | 0, _, _ => []
  | n + 1, p, [] => none :: groupPick rng bs n p []
  | n + 1, p, k :: ks =>
    let kIdx := rng p % (k :: ks).length
    let key := (k :: ks).getD kIdx k
    let keys' := (k :: ks).eraseIdx kIdx
    match (bs.lookup key).getD [] with
    | [] => none :: groupPick rng bs n (p + 1) keys'
    | a :: arr =>
      some ((a :: arr).getD (rng (p + 1) % (a :: arr).length) a) ::
        groupPick rng bs n (p + 2) keys'

/-- The whole `groupByField` branch: bucket the source, then pick `n` slots
from distinct buckets. -/
def groupSpin (rng : Nat → Nat) (f : Item → String) (source : List Item)
    (n : Nat) : List (Option Item) :=
  let bs := buildBuckets f source
  groupPick rng bs n 0 (bs.map Prod.fst)

/-- Invariant of the bucket map built by the `groupByField` branch: bucket
keys are distinct, every bucket is created non-empty with a non-empty key,
and every item sits in the bucket of its own key. -/
def BucketsInv (f : Item → String) (bs : List (String × List Item)) : Prop :=
  (bs.map Prod.fst).Nodup ∧
    ∀ kv ∈ bs, kv.1 ≠ "" ∧ kv.2 ≠ [] ∧ ∀ x ∈ kv.2, bucketKey f x = kv.1

/-! ### Concrete instances used in scenarios and witnesses -/

/-- The constant random stream: every draw takes index 0. -/
def rngZero : Nat → Nat := fun _ => 0

/-- Scenario item `A(backpack=true)`. -/
def exA : Item := ⟨"A", "", "", "true"⟩

/-- Scenario item `B(backpack=true)`. -/
def exB : Item := ⟨"B", "", "", "true"⟩

/-- Scenario item `C(backpack=false)`. -/
def exC : Item := ⟨"C", "", "", "false"⟩

/-- A non-expendable support weapon. -/
def exS1 : Item := ⟨"S1", "Support Weapon", "", ""⟩

/-- An expendable support weapon. -/
def exS3 : Item := ⟨"S3", "Support Weapon", "Expendable", ""⟩

open List

/-! ### Basic list lemmas about the splice operation -/

/-- An in-range `getD` is a member of the list. -/
theorem getD_mem {α : Type _} :
    ∀ (l : List α) (i : Nat) (d : α), i < l.length → l.getD i d ∈ l
  | a :: _, 0, _, _ => by simp
  | a :: as, i + 1, d, h => by
    have ih := getD_mem as i d (by simpa using h)
    simp only [List.getD_cons_succ]
    exact List.mem_cons_of_mem a ih

/-- Splicing index `i` out of a list, together with the element at `i`, is a
permutation of the list.  This is the shape of `arr.splice(idx, 1)[0]`. -/
theorem getD_cons_eraseIdx_perm {α : Type _} :
    ∀ (l : List α) (i : Nat) (d : α), i < l.length →
      l.getD i d :: l.eraseIdx i ~ l
  | a :: _, 0, _, _ => by simp
  | a :: as, i + 1, d, h => by
    have ih := getD_cons_eraseIdx_perm as i d (by simpa using h)
    simp only [List.getD_cons_succ, List.eraseIdx_cons_succ]
    exact (List.Perm.swap a (as.getD i d) (as.eraseIdx i)).trans (ih.cons a)

/-- A subpermutation of a duplicate-free list is duplicate-free. -/
theorem nodup_of_subperm {α : Type _} {l l' : List α} (h : l <+~ l')
    (hn : l'.Nodup) : l.Nodup := by
  obtain ⟨m, hm, hs⟩ := h
  exact hm.nodup (hs.nodup hn)

/-! ### The constraint predicate -/

/-- Number of selected items with `Has Backpack == 'true'` (case-insensitive),
as counted by the first rule of `satisfies`. -/
def backpackCount (items : List Item) : Nat :=
  (items.filter (fun x => strToLower x.hasBackpack == "true")).length

/-- Number of selected non-expendable support weapons, as counted by the
second rule of `satisfies`. -/
def nonExpSupportCount (items : List Item) : Nat :=
  ((items.filter (fun x => strToLower x.type == "support weapon")).filter
    (fun x => !(strToLower x.subtype == "expendable"))).length

theorem satisfies_eq_true_iff (items : List Item) :
    satisfies items = true ↔
      backpackCount items ≤ 1 ∧ nonExpSupportCount items ≤ 1 := by
  simp only [satisfies, backpackCount, nonExpSupportCount]
  split_ifs with h1 h2 <;> simp_all

theorem backpackCount_subperm {l l' : List Item} (h : l <+~ l') :
    backpackCount l ≤ backpackCount l' :=
  (List.Subperm.filter _ h).length_le

theorem nonExpSupportCount_subperm {l l' : List Item} (h : l <+~ l') :
    nonExpSupportCount l ≤ nonExpSupportCount l' :=
  (List.Subperm.filter _ (List.Subperm.filter _ h)).length_le

theorem backpackCount_perm {l l' : List Item} (h : l ~ l') :
    backpackCount l = backpackCount l' :=
  (h.filter _).length_eq

theorem nonExpSupportCount_perm {l l' : List Item} (h : l ~ l') :
    nonExpSupportCount l = nonExpSupportCount l' :=
  ((h.filter _).filter _).length_eq

/-- The constraints are closed under subpermutation: dropping items from a
valid selection keeps it valid. -/
theorem satisfies_subperm {l l' : List Item} (h : l <+~ l')
    (hs : satisfies l' = true) : satisfies l = true := by
  rw [satisfies_eq_true_iff] at hs ⊢
  exact ⟨le_trans (backpackCount_subperm h) hs.1,
    le_trans (nonExpSupportCount_subperm h) hs.2⟩

/-! ### The retry draw -/

/-- Each retry draw picks a subpermutation of the pool: items are spliced out
of the working copy, so no item is drawn twice. -/
theorem drawSeq_subperm (rng : Nat → Nat) :
    ∀ (p : Nat) (temp : List Item) (n : Nat), (drawSeq rng p temp n).1 <+~ temp
  | _, _, 0 => by simp [drawSeq]
  | _, [], _ + 1 => by simp [drawSeq]
  | p, t :: ts, n + 1 => by
    have hlt : rng p % (t :: ts).length < (t :: ts).length :=
      Nat.mod_lt _ (by simp)
    have ih := drawSeq_subperm rng (p + 1) ((t :: ts).eraseIdx (rng p % (t :: ts).length)) n
    have hperm := getD_cons_eraseIdx_perm (t :: ts) (rng p % (t :: ts).length) t hlt
    simp only [drawSeq]
    exact hperm.subperm_left.mp ((List.subperm_cons _).mpr ih)

/-- Each retry draw yields `min count pool.length` items: the loop stops at
`count` or when the working copy is exhausted. -/
theorem drawSeq_length (rng : Nat → Nat) :
    ∀ (p : Nat) (temp : List Item) (n : Nat),
      (drawSeq rng p temp n).1.length = min n temp.length
  | _, _, 0 => by simp [drawSeq]
  | _, [], _ + 1 => by simp [drawSeq]
  | p, t :: ts, n + 1 => by
    have hlt : rng p % (t :: ts).length < (t :: ts).length :=
      Nat.mod_lt _ (by simp)
    have ih := drawSeq_length rng (p + 1) ((t :: ts).eraseIdx (rng p % (t :: ts).length)) n
    have hlen : ((t :: ts).eraseIdx (rng p % (t :: ts).length)).length = ts.length := by
      rw [List.length_eraseIdx_of_lt hlt]; simp
    simp only [List.length_cons] at ih hlen
    simp only [drawSeq, List.length_cons]
    rw [ih, hlen]
    omega

/-! ### The retry loop -/

/-- If the retry loop succeeds, the returned pick has full length, satisfies
the constraints, and is a subpermutation of the pool. -/
theorem tryAttempts_some (rng : Nat → Nat) (pool : List Item) (count : Nat) :
    ∀ (fuel p : Nat) {pick : List Item} {q : Nat},
      tryAttempts rng pool count fuel p = (some pick, q) →
      pick.length = count ∧ satisfies pick = true ∧ pick <+~ pool := by
  intro fuel
  induction fuel with
  | zero => intro p pick q h; simp [tryAttempts] at h
  | succ fuel ih =>
    intro p pick q h
    simp only [tryAttempts] at h
    split at h
    · rename_i hcond
      obtain ⟨h1, h2⟩ := Bool.and_eq_true_iff.mp hcond
      cases h
      exact ⟨beq_iff_eq.mp h1, h2, drawSeq_subperm rng p pool count⟩
    · exact ih _ h

/-- If the very first attempt draws a full-length, constraint-satisfying
pick, the retry loop returns exactly that pick. -/
theorem tryAttempts_first (rng : Nat → Nat) (pool : List Item) (count : Nat)
    (fuel p : Nat)
    (hlen : (drawSeq rng p pool count).1.length = count)
    (hsat : satisfies (drawSeq rng p pool count).1 = true) :
    tryAttempts rng pool count (fuel + 1) p =
      (some (drawSeq rng p pool count).1, (drawSeq rng p pool count).2) := by
  simp [tryAttempts, hlen, hsat]

/-- If every attempt's draw fails the length-and-constraints test, the retry
loop fails. -/
theorem tryAttempts_fail (rng : Nat → Nat) (pool : List Item) (count : Nat)
    (hfail : ∀ q : Nat, ¬((drawSeq rng q pool count).1.length = count ∧
      satisfies (drawSeq rng q pool count).1 = true)) :
    ∀ (fuel p : Nat), (tryAttempts rng pool count fuel p).1 = none := by
  intro fuel
  induction fuel with
  | zero => intro p; simp [tryAttempts]
  | succ fuel ih =>
    intro p
    simp only [tryAttempts]
    split
    · rename_i hcond
      obtain ⟨h1, h2⟩ := Bool.and_eq_true_iff.mp hcond
      exact absurd ⟨beq_iff_eq.mp h1, h2⟩ (hfail p)
    · exact ih _

/-! ### The greedy fallback -/

/-- The greedy fallback result is drawn from `result ++ remaining` without
replacement. -/
theorem greedyGo_subperm (rng : Nat → Nat) (count : Nat) :
    ∀ (fuel p : Nat) (result remaining : List Item),
      greedyGo rng count fuel p result remaining <+~ result ++ remaining := by
  intro fuel
  induction fuel with
  | zero =>
    intro p result remaining
    exact (List.sublist_append_left result remaining).subperm
  | succ fuel ih =>
    intro p result remaining
    match remaining with
    | [] =>
      simpa [greedyGo] using (List.sublist_append_left result []).subperm
    | r :: rs =>
      simp only [greedyGo]
      split
      · have hlt : rng p % (r :: rs).length < (r :: rs).length :=
          Nat.mod_lt _ (by simp)
        have hperm := getD_cons_eraseIdx_perm (r :: rs) (rng p % (r :: rs).length) r hlt
        split
        · -- candidate accepted
          refine (ih (p + 1) _ _).trans ?_
          have : (result ++ [(r :: rs).getD (rng p % (r :: rs).length) r]) ++
              (r :: rs).eraseIdx (rng p % (r :: rs).length) ~ result ++ (r :: rs) := by
            rw [List.append_assoc]
            exact (hperm.append_left result)
          exact this.subperm
        · -- candidate rejected
          refine (ih (p + 1) _ _).trans ?_
          exact ((List.eraseIdx_sublist (r :: rs)
            (rng p % (r :: rs).length)).append_left result).subperm
      · exact (List.sublist_append_left result (r :: rs)).subperm

/-- The greedy fallback only ever appends constraint-respecting candidates,
so its result always satisfies the constraints. -/
theorem greedyGo_satisfies (rng : Nat → Nat) (count : Nat) :
    ∀ (fuel p : Nat) (result remaining : List Item),
      satisfies result = true →
      satisfies (greedyGo rng count fuel p result remaining) = true := by
  intro fuel
  induction fuel with
  | zero => intro p result remaining h; exact h
  | succ fuel ih =>
    intro p result remaining h
    match remaining with
    | [] => exact h
    | r :: rs =>
      simp only [greedyGo]
      split
      · split
        · rename_i hacc
          exact ih (p + 1) _ _ hacc
        · exact ih (p + 1) _ _ h
      · exact h

/-- The greedy fallback never grows the result past `count`. -/
theorem greedyGo_length_le (rng : Nat → Nat) (count : Nat) :
    ∀ (fuel p : Nat) (result remaining : List Item),
      result.length ≤ count →
      (greedyGo rng count fuel p result remaining).length ≤ count := by
  intro fuel
  induction fuel with
  | zero => intro p result remaining h; exact h
  | succ fuel ih =>
    intro p result remaining h
    match remaining with
    | [] => exact h
    | r :: rs =>
      simp only [greedyGo]
      split
      · rename_i hlt
        split
        · exact ih (p + 1) _ _ (by simp; omega)
        · exact ih (p + 1) _ _ h
      · exact h

/-- When the whole multiset `result ++ remaining` respects both constraint
caps, the greedy fallback rejects nothing: with enough fuel and room, it
consumes all of `remaining`. -/
theorem greedyGo_length_eq (rng : Nat → Nat) (count : Nat) :
    ∀ (fuel p : Nat) (result remaining : List Item),
      backpackCount (result ++ remaining) ≤ 1 →
      nonExpSupportCount (result ++ remaining) ≤ 1 →
      result.length + remaining.length ≤ count →
      remaining.length ≤ fuel →
      (greedyGo rng count fuel p result remaining).length =
        result.length + remaining.length := by
  intro fuel
  induction fuel with
  | zero =>
    intro p result remaining _ _ _ hfuel
    have : remaining = [] := List.length_eq_zero.mp (Nat.le_zero.mp hfuel)
    subst this
    simp [greedyGo]
  | succ fuel ih =>
    intro p result remaining hbp hne hroom hfuel
    match remaining with
    | [] => simp [greedyGo]
    | r :: rs =>
      have hlt : rng p % (r :: rs).length < (r :: rs).length :=
        Nat.mod_lt _ (by simp)
      have hperm : ((r :: rs).getD (rng p % (r :: rs).length) r) ::
          (r :: rs).eraseIdx (rng p % (r :: rs).length) ~ r :: rs :=
        getD_cons_eraseIdx_perm (r :: rs) (rng p % (r :: rs).length) r hlt
      have hperm' : (result ++ [(r :: rs).getD (rng p % (r :: rs).length) r]) ++
          (r :: rs).eraseIdx (rng p % (r :: rs).length) ~ result ++ (r :: rs) := by
        rw [List.append_assoc]
        exact hperm.append_left result
      have hacc : satisfies (result ++ [(r :: rs).getD (rng p % (r :: rs).length) r]) = true := by
        rw [satisfies_eq_true_iff]
        have hsub : result ++ [(r :: rs).getD (rng p % (r :: rs).length) r] <+~
            result ++ (r :: rs) :=
          hperm'.subperm_left.mp
            ((List.sublist_append_left _ _).subperm)
        exact ⟨le_trans (backpackCount_subperm hsub) hbp,
          le_trans (nonExpSupportCount_subperm hsub) hne⟩
      have hlen' : ((r :: rs).eraseIdx (rng p % (r :: rs).length)).length = rs.length := by
        rw [List.length_eraseIdx_of_lt hlt]; simp
      have hlen2 : ((r :: rs).eraseIdx (rng p % (rs.length + 1))).length = rs.length := by
        simpa using hlen'
      simp only [greedyGo]
      rw [if_pos (by simp at hroom ⊢; omega), if_pos hacc]
      rw [ih (p + 1) _ _
        (le_of_eq_of_le (backpackCount_perm hperm') hbp)
        (le_of_eq_of_le (nonExpSupportCount_perm hperm') hne)
        (by simp [hlen2] at hroom ⊢; omega)
        (by simp [hlen2] at hfuel ⊢; omega)]
      simp [hlen2]
      omega

/-! ### Collapsing the `Option` layer of a selection -/

/-- Extracting the non-empty slots of `items.map some` gives back `items`. -/
theorem filterMap_id_map_some (l : List Item) :
    (l.map some).filterMap (fun o => o) = l := by
  induction l with
  | nil => simp
  | cons a as ih => simp [ih]

/-- Padding `none`s contribute no non-empty slots. -/
theorem filterMap_id_replicate_none (k : Nat) :
    (List.replicate k (none : Option Item)).filterMap (fun o => o) = [] := by
  induction k with
  | zero => simp
  | succ k ih => simp [List.replicate_succ, ih]

/-! ### Top-level shape of the constrained sampler -/

theorem satisfies_nil : satisfies [] = true := by decide

/-- For positive `count`, the sampler either returns a successful retry pick
verbatim, or the padded greedy fallback. -/
theorem psc_shape (rng : Nat → Nat) (pool : List Item) (count : Int)
    (h : ¬count ≤ 0) :
    (∃ pick q, tryAttempts rng pool count.toNat MAX_TRIES 0 = (some pick, q) ∧
      pick.length = count.toNat ∧ satisfies pick = true ∧ pick <+~ pool ∧
      pickStratagemsWithConstraints rng pool count = pick.map some) ∨
    (∃ q, tryAttempts rng pool count.toNat MAX_TRIES 0 = (none, q) ∧
      pickStratagemsWithConstraints rng pool count =
        (greedy rng count.toNat q [] pool).map some ++
          List.replicate (count.toNat - (greedy rng count.toNat q [] pool).length)
            none) := by
  rcases htry : tryAttempts rng pool count.toNat MAX_TRIES 0 with ⟨o, q⟩
  cases o with
  | some pick =>
    left
    obtain ⟨h1, h2, h3⟩ := tryAttempts_some rng pool count.toNat MAX_TRIES 0 htry
    refine ⟨pick, q, rfl, h1, h2, h3, ?_⟩
    simp only [pickStratagemsWithConstraints, if_neg h, htry]
  | none =>
    right
    refine ⟨q, rfl, ?_⟩
    simp only [pickStratagemsWithConstraints, if_neg h, htry]

/-- For `count ≤ 0` the sampler returns the empty selection. -/
theorem psc_nonpos (rng : Nat → Nat) (pool : List Item) (count : Int)
    (h : count ≤ 0) : pickStratagemsWithConstraints rng pool count = [] := by
  simp [pickStratagemsWithConstraints, if_pos h]

/-- The non-empty slots of any sampler output satisfy both constraints. -/
theorem psc_filterMap_satisfies (rng : Nat → Nat) (pool : List Item)
    (count : Int) :
    satisfies ((pickStratagemsWithConstraints rng pool count).filterMap
      (fun o => o)) = true := by
  by_cases h : count ≤ 0
  · rw [psc_nonpos rng pool count h]
    exact satisfies_nil
  · rcases psc_shape rng pool count h with
      ⟨pick, q, _, _, h2, _, heq⟩ | ⟨q, _, heq⟩
    · rw [heq, filterMap_id_map_some]
      exact h2
    · rw [heq, List.filterMap_append, filterMap_id_map_some,
        filterMap_id_replicate_none, List.append_nil]
      exact greedyGo_satisfies rng count.toNat pool.length q [] pool satisfies_nil

/-- The non-empty slots of any sampler output are drawn from the pool without
replacement. -/
theorem psc_filterMap_subperm (rng : Nat → Nat) (pool : List Item)
    (count : Int) :
    (pickStratagemsWithConstraints rng pool count).filterMap (fun o => o)
      <+~ pool := by
  by_cases h : count ≤ 0
  · rw [psc_nonpos rng pool count h]
    exact List.nil_subperm
  · rcases psc_shape rng pool count h with
      ⟨pick, q, _, _, _, h3, heq⟩ | ⟨q, _, heq⟩
    · rw [heq, filterMap_id_map_some]
      exact h3
    · rw [heq, List.filterMap_append, filterMap_id_map_some,
        filterMap_id_replicate_none, List.append_nil]
      simpa using greedyGo_subperm rng count.toNat pool.length q [] pool

/-- The sampler output always has length `count.toNat` (so exactly `count`
for positive `count`, and `0` for `count ≤ 0`). -/
theorem psc_length (rng : Nat → Nat) (pool : List Item) (count : Int) :
    (pickStratagemsWithConstraints rng pool count).length = count.toNat := by
  by_cases h : count ≤ 0
  · rw [psc_nonpos rng pool count h]
    simp [Int.toNat_of_nonpos h]
  · rcases psc_shape rng pool count h with
      ⟨pick, q, _, h1, _, _, heq⟩ | ⟨q, _, heq⟩
    · rw [heq, List.length_map]
      exact h1
    · rw [heq]
      have hle : (greedy rng count.toNat q [] pool).length ≤ count.toNat := by
        simpa [greedy] using
          greedyGo_length_le rng count.toNat pool.length q [] pool (by simp)
      simp only [List.length_append, List.length_map, List.length_replicate]
      omega

/-! ### Claims C1, C2, C3, C5, C9 -/

/-- Claim C1: for every pool, every count, and every sequence of random
draws, the selection returned by `_pickStratagemsWithConstraints` contains
at most one non-empty slot whose `Has Backpack` field equals `"true"`
(case-insensitively); this covers both the retry path and the greedy
fallback path, since the random stream is universally quantified. -/
theorem claim1_at_most_one_backpack (rng : Nat → Nat) (pool : List Item)
    (count : Int) :
    backpackCount ((pickStratagemsWithConstraints rng pool count).filterMap
      (fun o => o)) ≤ 1 :=
  ((satisfies_eq_true_iff _).mp (psc_filterMap_satisfies rng pool count)).1

/-- Claim C2: for every pool, count and random stream, at most one non-empty
slot of the returned selection is a support weapon whose subtype is not
`"expendable"` (case-insensitively); expendable support weapons are not
counted. -/
theorem claim2_at_most_one_nonexp_support (rng : Nat → Nat) (pool : List Item)
    (count : Int) :
    nonExpSupportCount ((pickStratagemsWithConstraints rng pool count).filterMap
      (fun o => o)) ≤ 1 :=
  ((satisfies_eq_true_iff _).mp (psc_filterMap_satisfies rng pool count)).2

/-- Claim C3: for every pool of pairwise-distinct items, every count and
every random stream, no two non-empty slots of the returned selection hold
the same item: both the retry draw and the greedy fallback splice drawn
candidates out of their working copy. -/
theorem claim3_no_duplicate_slots (rng : Nat → Nat) (pool : List Item)
    (count : Int) (h : pool.Nodup) :
    ((pickStratagemsWithConstraints rng pool count).filterMap
      (fun o => o)).Nodup :=
  nodup_of_subperm (psc_filterMap_subperm rng pool count) h

theorem claim3_no_duplicate_slots_witness :
    ([exA, exB, exC].Nodup) ∧
      ((pickStratagemsWithConstraints rngZero [exA, exB, exC] 2).filterMap
        (fun o => o)).Nodup :=
  ⟨by decide, claim3_no_duplicate_slots rngZero [exA, exB, exC] 2 (by decide)⟩

/-- Claim C5: for every pool, count and random stream, the sampler
terminates with a selection of length exactly `count` when `count ≥ 1`
(`Int.toNat count` equals `count` then), and with the empty selection
exactly when `count ≤ 0`. -/
theorem claim5_total_and_full_length (rng : Nat → Nat) (pool : List Item)
    (count : Int) :
    (pickStratagemsWithConstraints rng pool count).length = count.toNat ∧
      (pickStratagemsWithConstraints rng pool count = [] ↔ count ≤ 0) := by
  refine ⟨psc_length rng pool count, ?_, psc_nonpos rng pool count⟩
  intro hnil
  have := psc_length rng pool count
  rw [hnil] at this
  simp only [List.length_nil] at this
  omega

/-- Claim C9: items whose `Has Backpack` field is missing (modelled as the
empty string) or any string other than case-insensitive `"true"` never count
toward the backpack cap — a pool of such items yields selections with zero
backpack items — and the sampler still returns a full-length selection
(no error). -/
theorem claim9_malformed_backpack_harmless (rng : Nat → Nat)
    (pool : List Item) (count : Int)
    (h : ∀ x ∈ pool, strToLower x.hasBackpack ≠ "true") :
    backpackCount ((pickStratagemsWithConstraints rng pool count).filterMap
      (fun o => o)) = 0 ∧
      (pickStratagemsWithConstraints rng pool count).length = count.toNat := by
  refine ⟨?_, psc_length rng pool count⟩
  have hpool : backpackCount pool = 0 := by
    unfold backpackCount
    rw [List.filter_eq_nil_iff.mpr (by simpa using h)]
    rfl
  have := backpackCount_subperm (psc_filterMap_subperm rng pool count)
  omega

theorem claim9_malformed_backpack_harmless_witness :
    (∀ x ∈ [exC, exS1], strToLower x.hasBackpack ≠ "true") ∧
      (backpackCount ((pickStratagemsWithConstraints rngZero [exC, exS1] 2).filterMap
        (fun o => o)) = 0 ∧
        (pickStratagemsWithConstraints rngZero [exC, exS1] 2).length = (2 : Int).toNat) :=
  ⟨by decide, claim9_malformed_backpack_harmless rngZero [exC, exS1] 2 (by decide)⟩

/-! ### Claim C4 -/

/-- Claim C4: if the pool as a whole contains at most one backpack item and
at most one non-expendable support weapon, and `0 < count ≤ pool.length`,
then for every random stream the sampler returns the first retry attempt's
draw verbatim: `count` non-empty slots drawn from the pool without
replacement, already satisfying both rules. -/
theorem claim4_first_attempt_success (rng : Nat → Nat) (pool : List Item)
    (count : Int)
    (hbp : backpackCount pool ≤ 1) (hne : nonExpSupportCount pool ≤ 1)
    (hpos : 0 < count) (hle : count ≤ (pool.length : Int)) :
    pickStratagemsWithConstraints rng pool count =
        ((drawSeq rng 0 pool count.toNat).1).map some ∧
      satisfies (drawSeq rng 0 pool count.toNat).1 = true ∧
      (pickStratagemsWithConstraints rng pool count).length = count.toNat ∧
      (∀ o ∈ pickStratagemsWithConstraints rng pool count, o ≠ none) ∧
      (pickStratagemsWithConstraints rng pool count).filterMap (fun o => o)
        <+~ pool := by
  have htoNat : count.toNat ≤ pool.length := by omega
  have hlen : (drawSeq rng 0 pool count.toNat).1.length = count.toNat := by
    rw [drawSeq_length]
    omega
  have hsat : satisfies (drawSeq rng 0 pool count.toNat).1 = true := by
    rw [satisfies_eq_true_iff]
    have hsub := drawSeq_subperm rng 0 pool count.toNat
    exact ⟨le_trans (backpackCount_subperm hsub) hbp,
      le_trans (nonExpSupportCount_subperm hsub) hne⟩
  have hMT : MAX_TRIES = 199 + 1 := rfl
  have htry := tryAttempts_first rng pool count.toNat 199 0 hlen hsat
  have heq : pickStratagemsWithConstraints rng pool count =
      ((drawSeq rng 0 pool count.toNat).1).map some := by
    simp only [pickStratagemsWithConstraints, if_neg (by omega : ¬count ≤ 0),
      hMT, htry]
  refine ⟨heq, hsat, psc_length rng pool count, ?_, psc_filterMap_subperm rng pool count⟩
  rw [heq]
  intro o ho
  obtain ⟨a, _, rfl⟩ := List.mem_map.mp ho
  simp

theorem claim4_first_attempt_success_witness :
    (backpackCount [exA, exC] ≤ 1 ∧ nonExpSupportCount [exA, exC] ≤ 1 ∧
        (0 : Int) < 2 ∧ (2 : Int) ≤ ([exA, exC].length : Int)) ∧
      (pickStratagemsWithConstraints rngZero [exA, exC] 2 =
          ((drawSeq rngZero 0 [exA, exC] (2 : Int).toNat).1).map some ∧
        satisfies (drawSeq rngZero 0 [exA, exC] (2 : Int).toNat).1 = true ∧
        (pickStratagemsWithConstraints rngZero [exA, exC] 2).length = (2 : Int).toNat ∧
        (∀ o ∈ pickStratagemsWithConstraints rngZero [exA, exC] 2, o ≠ none) ∧
        (pickStratagemsWithConstraints rngZero [exA, exC] 2).filterMap (fun o => o)
          <+~ [exA, exC]) :=
  ⟨⟨by decide, by decide, by decide, by decide⟩,
    claim4_first_attempt_success rngZero [exA, exC] 2
      (by decide) (by decide) (by decide) (by decide)⟩

/-! ### Claim C6 -/

/-- Claim C6 counterexample: for the pool `[A(backpack=true),
B(backpack=true)]` and `count = 3 > pool.length = 2` with the constant
random stream, the selection has `1` non-empty slot and `2` empty markers,
not `pool.length = 2` non-empty slots as the claim states: the greedy
fallback rejects the second backpack item instead of keeping it. -/
theorem claim6_counterexample :
    (([exA, exB].length : Int) < 3) ∧
      ((pickStratagemsWithConstraints rngZero [exA, exB] 3).filterMap
        (fun o => o)).length = 1 ∧
      List.count none (pickStratagemsWithConstraints rngZero [exA, exB] 3) = 2 ∧
      ((pickStratagemsWithConstraints rngZero [exA, exB] 3).filterMap
        (fun o => o)).length ≠ [exA, exB].length :=
  ⟨by decide, by decide, by decide, by decide⟩

/-- Claim C6 (amended): for every pool containing at most one backpack item
and at most one non-expendable support weapon, every `count > pool.length`,
and every random stream, the selection has exactly `pool.length` non-empty
slots and exactly `count - pool.length` empty markers.  (As stated, the
claim fails for pools that themselves violate a constraint: the greedy
fallback drops violating candidates, leaving extra empty markers.) -/
theorem claim6_amended_padding (rng : Nat → Nat) (pool : List Item)
    (count : Int)
    (hbp : backpackCount pool ≤ 1) (hne : nonExpSupportCount pool ≤ 1)
    (hgt : (pool.length : Int) < count) :
    ((pickStratagemsWithConstraints rng pool count).filterMap
        (fun o => o)).length = pool.length ∧
      List.count none (pickStratagemsWithConstraints rng pool count) =
        count.toNat - pool.length := by
  have hc0 : ¬count ≤ 0 := by omega
  have hfail : ∀ q : Nat, ¬((drawSeq rng q pool count.toNat).1.length = count.toNat ∧
      satisfies (drawSeq rng q pool count.toNat).1 = true) := by
    intro q hcontra
    have := drawSeq_length rng q pool count.toNat
    rw [hcontra.1] at this
    omega
  have hnone := tryAttempts_fail rng pool count.toNat hfail MAX_TRIES 0
  rcases psc_shape rng pool count hc0 with
    ⟨pick, q, htry, _, _, _, _⟩ | ⟨q, htry, heq⟩
  · rw [htry] at hnone
    simp at hnone
  · have hglen : (greedy rng count.toNat q [] pool).length = pool.length := by
      unfold greedy
      have := greedyGo_length_eq rng count.toNat pool.length q [] pool
        (by simpa using hbp) (by simpa using hne) (by simp; omega) (by simp)
      simpa using this
    constructor
    · rw [heq, List.filterMap_append, filterMap_id_map_some,
        filterMap_id_replicate_none, List.append_nil]
      exact hglen
    · rw [heq, List.count_append]
      have h1 : List.count (none : Option Item)
          ((greedy rng count.toNat q [] pool).map some) = 0 := by
        rw [List.count_eq_zero]
        simp
      have h2 : List.count (none : Option Item)
          (List.replicate (count.toNat - (greedy rng count.toNat q [] pool).length)
            none) = count.toNat - (greedy rng count.toNat q [] pool).length :=
        List.count_replicate_self _ _
      rw [h1, h2, hglen]
      omega

theorem claim6_amended_padding_witness :
    (backpackCount [exA] ≤ 1 ∧ nonExpSupportCount [exA] ≤ 1 ∧
        (([exA].length : Int) < 2)) ∧
      (((pickStratagemsWithConstraints rngZero [exA] 2).filterMap
          (fun o => o)).length = [exA].length ∧
        List.count none (pickStratagemsWithConstraints rngZero [exA] 2) =
          (2 : Int).toNat - [exA].length) :=
  ⟨⟨by decide, by decide, by decide⟩,
    claim6_amended_padding rngZero [exA] 2 (by decide) (by decide) (by decide)⟩

/-! ### Claim C7: the concrete backpack scenario -/

/-- Once the result is full the greedy loop stops immediately. -/
theorem greedyGo_stop (rng : Nat → Nat) (count : Nat) (fuel p : Nat)
    (result remaining : List Item) (h : ¬result.length < count) :
    greedyGo rng count fuel p result remaining = result := by
  match fuel, remaining with
  | 0, _ => rfl
  | _ + 1, [] => rfl
  | fuel + 1, r :: rs => simp only [greedyGo, if_neg h]

/-- The greedy fallback on the scenario pool `[A, B, C]` with two slots
always produces `C` together with exactly one of `A`, `B`: whichever of the
two backpack items is drawn second gets rejected. -/
theorem greedy7_top (rng : Nat → Nat) (fuel p : Nat) :
    greedyGo rng 2 (fuel + 1 + 1 + 1) p [] [exA, exB, exC] = [exA, exC] ∨
      greedyGo rng 2 (fuel + 1 + 1 + 1) p [] [exA, exB, exC] = [exB, exC] ∨
      greedyGo rng 2 (fuel + 1 + 1 + 1) p [] [exA, exB, exC] = [exC, exA] ∨
      greedyGo rng 2 (fuel + 1 + 1 + 1) p [] [exA, exB, exC] = [exC, exB] := by
  have sA : satisfies [exA] = true := by decide
  have sB : satisfies [exB] = true := by decide
  have sC : satisfies [exC] = true := by decide
  have sAB : satisfies [exA, exB] = false := by decide
  have sBA : satisfies [exB, exA] = false := by decide
  have sAC : satisfies [exA, exC] = true := by decide
  have sBC : satisfies [exB, exC] = true := by decide
  have sCA : satisfies [exC, exA] = true := by decide
  have sCB : satisfies [exC, exB] = true := by decide
  have h1 : rng p % 3 = 0 ∨ rng p % 3 = 1 ∨ rng p % 3 = 2 := by omega
  have h2 : rng (p + 1) % 2 = 0 ∨ rng (p + 1) % 2 = 1 := by omega
  rcases h1 with h1 | h1 | h1 <;> rcases h2 with h2 | h2 <;>
    simp [greedyGo, h1, h2, Nat.mod_one, sA, sB, sC, sAB, sBA, sAC, sBC,
      sCA, sCB]
  · left
    exact greedyGo_stop rng 2 fuel _ _ _ (by simp)
  · right; left
    exact greedyGo_stop rng 2 fuel _ _ _ (by simp)

/-- A duplicate-free two-element subpermutation of the scenario pool is one
of the six ordered pairs. -/
theorem pairs_of_subperm_scenario (pick : List Item) (hlen : pick.length = 2)
    (hsub : pick <+~ [exA, exB, exC]) :
    pick = [exA, exB] ∨ pick = [exB, exA] ∨ pick = [exA, exC] ∨
      pick = [exC, exA] ∨ pick = [exB, exC] ∨ pick = [exC, exB] := by
  have hnd : pick.Nodup := nodup_of_subperm hsub (by decide)
  have hsubset := hsub.subset
  rcases pick with _ | ⟨x, _ | ⟨y, _ | ⟨z, t⟩⟩⟩
  · simp at hlen
  · simp at hlen
  · have hx : x ∈ [exA, exB, exC] := hsubset (by simp)
    have hy : y ∈ [exA, exB, exC] := hsubset (by simp)
    have hxy : x ≠ y := by simpa using hnd
    simp only [List.mem_cons, List.mem_singleton, List.not_mem_nil,
      or_false] at hx hy
    rcases hx with rfl | rfl | rfl <;> rcases hy with rfl | rfl | rfl <;>
      simp_all
  · simp at hlen

/-- Claim C7: for the pool `[A(backpack=true), B(backpack=true),
C(backpack=false)]` and `count = 2`, for every sequence of random draws —
whether the retry path or the greedy fallback produces the result — the
selection contains `C` and exactly one of `A`, `B`, with no empty slots. -/
theorem claim7_backpack_scenario (rng : Nat → Nat) :
    (pickStratagemsWithConstraints rng [exA, exB, exC] 2).length = 2 ∧
      none ∉ pickStratagemsWithConstraints rng [exA, exB, exC] 2 ∧
      some exC ∈ pickStratagemsWithConstraints rng [exA, exB, exC] 2 ∧
      ((some exA ∈ pickStratagemsWithConstraints rng [exA, exB, exC] 2 ∧
          some exB ∉ pickStratagemsWithConstraints rng [exA, exB, exC] 2) ∨
        (some exB ∈ pickStratagemsWithConstraints rng [exA, exB, exC] 2 ∧
          some exA ∉ pickStratagemsWithConstraints rng [exA, exB, exC] 2)) := by
  have hc0 : ¬(2 : Int) ≤ 0 := by decide
  rcases psc_shape rng [exA, exB, exC] 2 hc0 with
    ⟨pick, q, _, h1, h2, h3, heq⟩ | ⟨q, _, heq⟩
  · have h1' : pick.length = 2 := h1
    rcases pairs_of_subperm_scenario pick h1' h3 with
      rfl | rfl | rfl | rfl | rfl | rfl
    · exact absurd h2 (by decide)
    · exact absurd h2 (by decide)
    · rw [heq]; exact ⟨by decide, by decide, by decide, by decide⟩
    · rw [heq]; exact ⟨by decide, by decide, by decide, by decide⟩
    · rw [heq]; exact ⟨by decide, by decide, by decide, by decide⟩
    · rw [heq]; exact ⟨by decide, by decide, by decide, by decide⟩
  · have hg : greedy rng (2 : Int).toNat q [] [exA, exB, exC] =
        greedyGo rng 2 (0 + 1 + 1 + 1) q [] [exA, exB, exC] := rfl
    rw [hg] at heq
    rcases greedy7_top rng 0 q with hG | hG | hG | hG <;> rw [hG] at heq <;>
      rw [heq] <;> exact ⟨by decide, by decide, by decide, by decide⟩

/-! ### Claims C8 and C10: the group-partitioned sampler -/

/-- A key present in the association list has a successful lookup. -/
theorem lookup_some_of_mem_keys {bs : List (String × List Item)} {k : String}
    (hk : k ∈ bs.map Prod.fst) : ∃ arr, bs.lookup k = some arr := by
  have hsome : (bs.lookup k).isSome := by
    rw [List.lookup_isSome_iff]
    obtain ⟨kv, hkv, hfst⟩ := List.mem_map.mp hk
    exact ⟨kv, hkv, by simp [hfst]⟩
  exact Option.isSome_iff_exists.mp hsome

/-- A successful lookup returns one of the association list's entries. -/
theorem mem_of_lookup_eq_some {bs : List (String × List Item)} {k : String}
    {arr : List Item} (h : bs.lookup k = some arr) : (k, arr) ∈ bs := by
  obtain ⟨l₁, l₂, rfl, -⟩ := List.lookup_eq_some_iff.mp h
  simp

/-- `addToBuckets` preserves the bucket invariant. -/
theorem addToBuckets_inv (f : Item → String) (bs : List (String × List Item))
    (it : Item) (h : BucketsInv f bs) : BucketsInv f (addToBuckets f bs it) := by
  simp only [addToBuckets]
  split
  · exact h
  · rename_i hkey
    split
    · -- existing bucket: append the item to it
      refine ⟨?_, ?_⟩
      · have hfst : ((bs.map fun kv =>
            if kv.1 = bucketKey f it then (kv.1, kv.2 ++ [it]) else kv).map
              Prod.fst) = bs.map Prod.fst := by
          rw [List.map_map]
          apply List.map_congr_left
          intro kv _
          by_cases hc : kv.1 = bucketKey f it <;> simp [hc]
        rw [hfst]
        exact h.1
      · intro kv hkv
        obtain ⟨kv0, hkv0, hkveq⟩ := List.mem_map.mp hkv
        obtain ⟨h1, h2, h3⟩ := h.2 kv0 hkv0
        by_cases hc : kv0.1 = bucketKey f it
        · rw [if_pos hc] at hkveq
          subst hkveq
          refine ⟨h1, by simp, ?_⟩
          intro x hx
          rcases List.mem_append.mp hx with hx | hx
          · exact h3 x hx
          · simp only [List.mem_singleton] at hx
            subst hx
            exact hc.symm
        · rw [if_neg hc] at hkveq
          subst hkveq
          exact ⟨h1, h2, h3⟩
    · -- new bucket at the end
      rename_i hnone
      have hnotmem : bucketKey f it ∉ bs.map Prod.fst := by
        intro hmem
        obtain ⟨arr, harr⟩ := lookup_some_of_mem_keys hmem
        simp [harr] at hnone
      refine ⟨?_, ?_⟩
      · rw [List.map_append]
        rw [List.nodup_append]
        exact ⟨h.1, by simp, by simpa [List.disjoint_singleton] using hnotmem⟩
      · intro kv hkv
        rcases List.mem_append.mp hkv with hkv | hkv
        · exact h.2 kv hkv
        · simp only [List.mem_singleton] at hkv
          subst hkv
          exact ⟨hkey, by simp, by simp⟩

/-- The bucket map built from any source satisfies the bucket invariant. -/
theorem buildBuckets_inv (f : Item → String) (source : List Item) :
    BucketsInv f (buildBuckets f source) := by
  unfold buildBuckets
  suffices H : ∀ bs, BucketsInv f bs →
      BucketsInv f (source.foldl (addToBuckets f) bs) by
    exact H [] ⟨by simp, by simp⟩
  induction source with
  | nil => intro bs h; exact h
  | cons a as ih =>
    intro bs h
    simp only [List.foldl_cons]
    exact ih _ (addToBuckets_inv f bs a h)

/-- Core property of the per-slot loop: every returned item carries a bucket
key from the current key list, and — because keys are spliced out without
replacement — the returned items' bucket keys are pairwise distinct. -/
theorem groupPick_keys_spec (rng : Nat → Nat) (f : Item → String)
    (bs : List (String × List Item)) (hinv : BucketsInv f bs) :
    ∀ (n p : Nat) (keys : List String), keys.Nodup →
      (∀ k ∈ keys, k ∈ bs.map Prod.fst) →
      (∀ x ∈ (groupPick rng bs n p keys).filterMap (fun o => o),
          bucketKey f x ∈ keys) ∧
        (((groupPick rng bs n p keys).filterMap (fun o => o)).map
            (bucketKey f)).Nodup
  | 0, p, keys, _, _ => by simp [groupPick]
  | n + 1, p, [], hnd, hsub => by
    simp only [groupPick, List.filterMap_cons]
    exact groupPick_keys_spec rng f bs hinv n p [] hnd hsub
  | n + 1, p, k :: ks, hnd, hsub => by
    have hlt : rng p % (k :: ks).length < (k :: ks).length :=
      Nat.mod_lt _ (by simp)
    have hkeymem : (k :: ks).getD (rng p % (k :: ks).length) k ∈ k :: ks :=
      getD_mem _ _ _ hlt
    have hperm := getD_cons_eraseIdx_perm (k :: ks) (rng p % (k :: ks).length) k hlt
    have hnd2 : ((k :: ks).getD (rng p % (k :: ks).length) k ::
        (k :: ks).eraseIdx (rng p % (k :: ks).length)).Nodup :=
      hnd.perm hperm.symm
    have hkeynot := (List.nodup_cons.mp hnd2).1
    have hnd' := (List.nodup_cons.mp hnd2).2
    have hsub' : ∀ k' ∈ (k :: ks).eraseIdx (rng p % (k :: ks).length),
        k' ∈ bs.map Prod.fst :=
      fun k' hk' => hsub k' (List.mem_of_mem_eraseIdx hk')
    obtain ⟨arr, harr⟩ := lookup_some_of_mem_keys (hsub _ hkeymem)
    obtain ⟨hk1, hk2, hk3⟩ := hinv.2 _ (mem_of_lookup_eq_some harr)
    obtain ⟨ih1, ih2⟩ := groupPick_keys_spec rng f bs hinv n (p + 2)
      ((k :: ks).eraseIdx (rng p % (k :: ks).length)) hnd' hsub'
    match arr, hk2, harr with
    | a :: t, _, harr =>
      have hin : (a :: t).getD (rng (p + 1) % (a :: t).length) a ∈ a :: t :=
        getD_mem _ _ _ (Nat.mod_lt _ (by simp))
      have hkey_pick : bucketKey f ((a :: t).getD (rng (p + 1) % (a :: t).length) a)
          = (k :: ks).getD (rng p % (k :: ks).length) k := hk3 _ hin
      simp only [groupPick, harr, Option.getD_some, List.filterMap_cons]
      refine ⟨?_, ?_⟩
      · intro x hx
        rcases List.mem_cons.mp hx with rfl | hx
        · rw [hkey_pick]; exact hkeymem
        · exact List.mem_of_mem_eraseIdx (ih1 x hx)
      · rw [List.map_cons, List.nodup_cons]
        refine ⟨?_, ih2⟩
        intro hcontra
        obtain ⟨y, hy, hyeq⟩ := List.mem_map.mp hcontra
        have hmem := ih1 y hy
        rw [hyeq, hkey_pick] at hmem
        exact hkeynot hmem

/-- When at least `n` bucket keys are available, every one of the `n` slots
is filled (all buckets are non-empty by construction). -/
theorem groupPick_full (rng : Nat → Nat) (f : Item → String)
    (bs : List (String × List Item)) (hinv : BucketsInv f bs) :
    ∀ (n p : Nat) (keys : List String),
      (∀ k ∈ keys, k ∈ bs.map Prod.fst) → n ≤ keys.length →
      ∀ o ∈ groupPick rng bs n p keys, o.isSome
  | 0, _, _, _, _ => by simp [groupPick]
  | n + 1, p, [], _, hle => by simp at hle
  | n + 1, p, k :: ks, hsub, hle => by
    have hlt : rng p % (k :: ks).length < (k :: ks).length :=
      Nat.mod_lt _ (by simp)
    have hkeymem : (k :: ks).getD (rng p % (k :: ks).length) k ∈ k :: ks :=
      getD_mem _ _ _ hlt
    have hsub' : ∀ k' ∈ (k :: ks).eraseIdx (rng p % (k :: ks).length),
        k' ∈ bs.map Prod.fst :=
      fun k' hk' => hsub k' (List.mem_of_mem_eraseIdx hk')
    have hlen' : ((k :: ks).eraseIdx (rng p % (k :: ks).length)).length = ks.length := by
      rw [List.length_eraseIdx_of_lt hlt]; simp
    obtain ⟨arr, harr⟩ := lookup_some_of_mem_keys (hsub _ hkeymem)
    obtain ⟨hk1, hk2, hk3⟩ := hinv.2 _ (mem_of_lookup_eq_some harr)
    match arr, hk2, harr with
    | a :: t, _, harr =>
      simp only [groupPick, harr, Option.getD_some]
      intro o ho
      rcases List.mem_cons.mp ho with rfl | ho
      · simp
      · exact groupPick_full rng f bs hinv n (p + 2)
          ((k :: ks).eraseIdx (rng p % (k :: ks).length)) hsub'
          (by rw [hlen']; simpa using hle) o ho

/-- Claim C8: for every source pool, grouping field and random stream, no two
items returned by the group-partitioned sampler share the same lowercase
bucket key (bucket keys are drawn without replacement), and when the number
of non-empty buckets is at least the requested slot count, every slot is
filled. -/
theorem claim8_group_partitioned (rng : Nat → Nat) (f : Item → String)
    (source : List Item) (n : Nat) :
    (((groupSpin rng f source n).filterMap (fun o => o)).map
        (bucketKey f)).Nodup ∧
      (n ≤ (buildBuckets f source).length →
        ∀ o ∈ groupSpin rng f source n, o.isSome) := by
  have hinv := buildBuckets_inv f source
  constructor
  · exact (groupPick_keys_spec rng f (buildBuckets f source) hinv n 0
      ((buildBuckets f source).map Prod.fst) hinv.1 (fun k hk => hk)).2
  · intro hn
    exact groupPick_full rng f (buildBuckets f source) hinv n 0
      ((buildBuckets f source).map Prod.fst) (fun k hk => hk)
      (by simpa using hn)

theorem claim8_group_partitioned_witness :
    (((groupSpin rngZero Item.type [exS1, exS3, exA] 1).filterMap
        (fun o => o)).map (bucketKey Item.type)).Nodup ∧
      (1 ≤ (buildBuckets Item.type [exS1, exS3, exA]).length →
        ∀ o ∈ groupSpin rngZero Item.type [exS1, exS3, exA] 1, o.isSome) :=
  claim8_group_partitioned rngZero Item.type [exS1, exS3, exA] 1

/-- Claim C10: an item whose grouping-field value is missing or empty is
excluded from every bucket, so it can never appear in the group-partitioned
selection, for every pool and every random stream. -/
theorem claim10_empty_key_excluded (rng : Nat → Nat) (f : Item → String)
    (source : List Item) (n : Nat) (x : Item) (h : f x = "") :
    some x ∉ groupSpin rng f source n := by
  intro hmem
  have hinv := buildBuckets_inv f source
  have hx : x ∈ (groupSpin rng f source n).filterMap (fun o => o) := by
    rw [List.mem_filterMap]
    exact ⟨some x, hmem, rfl⟩
  have hkey := (groupPick_keys_spec rng f (buildBuckets f source) hinv n 0
    ((buildBuckets f source).map Prod.fst) hinv.1 (fun k hk => hk)).1 x hx
  have hempty : bucketKey f x = "" := by
    unfold bucketKey
    rw [h]
    rfl
  obtain ⟨kv, hkv, hfst⟩ := List.mem_map.mp hkey
  exact (hinv.2 kv hkv).1 (by rw [hfst, hempty])

theorem claim10_empty_key_excluded_witness :
    exA.type = "" ∧ some exA ∉ groupSpin rngZero Item.type [exS1, exA] 2 :=
  ⟨rfl, claim10_empty_key_excluded rngZero Item.type [exS1, exA] 2 exA rfl⟩
